import Mathlib

/-!
Verification of the poem-of-the-day extractor (`scripts/fetch_poem.py`).

This file shallowly embeds the pure extraction/validation core of the
Python script `scripts/fetch_poem.py` and proves properties about it.

Conventions of the embedding:
* Python `str` values are Lean `String`s; most primitives are written over
  `List Char` and lifted.  Python's whitespace set, `str.strip`, `str.count`
  (non-overlapping), `str.replace`, `in` (substring), `str.splitlines`,
  `str.lower` (ASCII model) are reproduced as `py*` functions.
* The handful of regular expressions the script uses are hand-compiled into
  deterministic scanners that reproduce CPython's leftmost, non-overlapping
  `re.sub`/`re.finditer`/`re.match` behaviour for those specific patterns.
  Every scanner is written with structural recursion (a pending-skip counter
  instead of list `drop` in recursive positions) so that everything
  evaluates by `decide`/`rfl`.
* `html.parser.HTMLParser` is Python standard library, external to the
  repository: its callback interface is embedded as a `Token` stream, and a
  tokenizer modelling the stdlib's behaviour (with the default
  `convert_charrefs=True`, which decodes character references into data and
  never fires `handle_entityref`/`handle_charref`) is provided for
  well-formed fragments so that `html_to_markdown` can be run on strings.
-/

namespace FetchPoem

/-- Python whitespace predicate (`str.isspace` / default `str.strip` set),
restricted to the characters that can occur in this development. -/
def pyIsSpace (c : Char) : Bool :=
  c == ' ' || c == '\t' || c == '\n' || c == '\r' ||
  c == Char.ofNat 11 || c == Char.ofNat 12 ||
  c == Char.ofNat 28 || c == Char.ofNat 29 || c == Char.ofNat 30 ||
  c == Char.ofNat 31 || c == Char.ofNat 133 || c == Char.ofNat 160 ||
  c == Char.ofNat 0x2028 || c == Char.ofNat 0x2029

/-- ASCII lower-casing of one character (model of `str.lower`, which the
script only applies to ASCII boilerplate and URLs). -/
def asciiLower (c : Char) : Char :=
  if 'A' ≤ c && c ≤ 'Z' then Char.ofNat (c.toNat + 32) else c

/-- Python `s.lower()` (ASCII model). -/
def pyLower (s : String) : String := ⟨s.data.map asciiLower⟩

/-- Python `s.lstrip()`. -/
def pyLstrip (s : String) : String := ⟨s.data.dropWhile pyIsSpace⟩

/-- Python `s.rstrip()`. -/
def pyRstrip (s : String) : String :=
  ⟨(s.data.reverse.dropWhile pyIsSpace).reverse⟩

/-- Python `s.strip()`. -/
def pyStrip (s : String) : String := pyLstrip (pyRstrip s)

/-- Prefix test `listPref pat l`: does `l` start with `pat`? -/
def listPref (pat : List Char) : List Char → Bool
  | [] => pat.isEmpty
  | c :: t =>
    match pat with
    | [] => true
    | p :: ps => p == c && listPref ps t

/-- Case-insensitive (ASCII) version of `listPref`. -/
def listPrefCI (pat : List Char) : List Char → Bool
  | [] => pat.isEmpty
  | c :: t =>
    match pat with
    | [] => true
    | p :: ps => asciiLower p == asciiLower c && listPrefCI ps t

/-- Sublist test `hasSub pat l`: does `pat` occur as a contiguous sublist of `l`?
(`python: pat in l`; the empty pattern is contained in everything.) -/
def hasSub (pat : List Char) : List Char → Bool
  | [] => pat.isEmpty
  | c :: t => listPref pat (c :: t) || hasSub pat t

/-- Python `pat in hay` (substring test). -/
def pyContains (hay pat : String) : Bool := hasSub pat.data hay.data

/-- Python `s.startswith(pre)`. -/
def pyStartsWith (s pre : String) : Bool := listPref pre.data s.data

/-- Python `s.endswith (suf)`. -/
def pyEndsWith (s suf : String) : Bool :=
  listPref suf.data.reverse s.data.reverse

/-- Non-overlapping, left-to-right occurrence count of a (non-empty)
pattern, as in `python: hay.count(pat)`.  The `Nat` argument is the number
of characters still to be skipped after a match was consumed. -/
def countSubL (pat : List Char) : List Char → Nat → Nat
  | [], _ => 0
  | _ :: t, Nat.succ k => countSubL pat t k
  | c :: t, 0 =>
    if !pat.isEmpty && listPref pat (c :: t) then
      1 + countSubL pat t (pat.length - 1)
    else
      countSubL pat t 0

/-- Python `hay.count(pat)` for non-empty `pat`. -/
def countSub (hay pat : String) : Nat := countSubL pat.data hay.data 0

/-- Left-to-right, non-overlapping replacement, as in
`python: s.replace(pat, rep)` for non-empty `pat`. -/
def replL (pat rep : List Char) : List Char → Nat → List Char
  | [], _ => []
  | _ :: t, Nat.succ k => replL pat rep t k
  | c :: t, 0 =>
    if listPref pat (c :: t) then
      rep ++ replL pat rep t (pat.length - 1)
    else
      c :: replL pat rep t 0

/-- Python `s.replace(pat, rep)`.  (The script never calls `replace` with
an empty pattern; for safety that case returns `s` unchanged.) -/
def pyReplace (s pat rep : String) : String :=
  if pat.data.isEmpty then s else ⟨replL pat.data rep.data s.data 0⟩

/-- Split at the first occurrence of `pat`: `splitSubL pat l = some (a, b)`
with `l = a ++ pat ++ b` and `a` shortest, `none` if `pat` never occurs. -/
def splitSubL (pat : List Char) : List Char → Option (List Char × List Char)
  | [] => if pat.isEmpty then some ([], []) else none
  | c :: t =>
    if listPref pat (c :: t) then some ([], (c :: t).drop pat.length)
    else
      match splitSubL pat t with
      | some (a, b) => some (c :: a, b)
      | none => none

/-- Python `s.split(sep, 1)` when `sep` is known to occur in `s`
(the script guards each call with `sep in s`). -/
def pySplitOnce (s sep : String) : String × String :=
  match splitSubL sep.data s.data with
  | some (a, b) => (⟨a⟩, ⟨b⟩)
  | none => (s, "")

-- ---------------------------------------------------------------------------
-- Validator  (`is_valid`, fetch_poem.py lines 563-582)
-- ---------------------------------------------------------------------------

/-- The `{title, author, poem}` dictionary produced by the extractors. -/
structure PoemRecord where
  title : String
  author : String
  poem : String
deriving DecidableEq

/-- Python `_BLOCKED_TOKENS` — site-internals fingerprints. -/
def _BLOCKED_TOKENS : List String :=
  ["window.__nuxt__",
   "primarynavigation_node",
   "cachetags",
   "<script",
   "poetry foundation homepage",
   "sign up to receive the poem of the day",
   "poetrymagazine archive",
   "advertise withpoetry"]

/-- Python `is_valid(data)` — the Validator.  It reads only the `poem`
field of the record. -/
def is_valid (data : PoemRecord) : Bool :=
  let poem := pyStrip data.poem
  if poem = "" then false
  else if poem.length > 20000 || countSub poem "\n" > 1200 then false
  else
    let low := pyLower poem
    ! _BLOCKED_TOKENS.any (fun tok => pyContains low tok)

/-- C3 (amended): the Validator rejects a record exactly when one of these
holds of the *whitespace-trimmed* body: it is empty; it exceeds 20,000
characters; it contains more than 1,200 line breaks; or its lower-cased
form contains one of the fixed denylist substrings. -/
theorem is_valid_false_iff (d : PoemRecord) :
    is_valid d = false ↔
      (pyStrip d.poem = "" ∨
       (pyStrip d.poem).length > 20000 ∨
       countSub (pyStrip d.poem) "\n" > 1200 ∨
       ∃ tok ∈ _BLOCKED_TOKENS,
         pyContains (pyLower (pyStrip d.poem)) tok = true) := by
  unfold is_valid
  by_cases h1 : pyStrip d.poem = ""
  · simp [h1]
  · by_cases h2 : (pyStrip d.poem).length > 20000
    · simp [h1, h2]
    · by_cases h3 : countSub (pyStrip d.poem) "\n" > 1200
      · simp [h1, h2, h3]
      · simp [h1, h2, h3, List.any_eq_true]

/-- Witness for C3's amended theorem: the empty body is rejected. -/
theorem is_valid_false_iff_witness :
    is_valid ⟨"t", "a", ""⟩ = false :=
  (is_valid_false_iff ⟨"t", "a", ""⟩).mpr (Or.inl (by decide))

/-- Body used in the C3 counterexample: `"a"` followed by 1202 newlines. -/
def c3Body : String := ⟨'a' :: List.replicate 1202 '\n'⟩

set_option maxRecDepth 100000 in
/-- C3 counterexample: this body contains 1202 > 1200 line breaks, so the
claim demands rejection, yet `is_valid` accepts it — the code counts line
breaks (and characters) only in the *stripped* body, and all 1202 newlines
here are trailing whitespace. -/
theorem is_valid_counterexample_trailing_newlines :
    countSub c3Body "\n" = 1202 ∧ is_valid ⟨"t", "a", c3Body⟩ = true := by
  constructor
  · decide
  · decide

/-- C4 counterexample: a record whose title is the generic
"Poem of the Day" placeholder with an empty author is *accepted* whenever
its body passes the body checks — the claim demands rejection regardless
of the body. -/
theorem is_valid_counterexample_generic_title :
    is_valid ⟨"Poem of the Day", "", "Roses are red,\nviolets are blue."⟩
      = true := by decide

/-- C4 (amended): the Validator never inspects the title or the author:
its verdict is a function of the body alone. -/
theorem is_valid_ignores_title_author
    (t a t' a' p : String) : is_valid ⟨t, a, p⟩ = is_valid ⟨t', a', p⟩ := rfl

-- ---------------------------------------------------------------------------
-- HTML → Markdown converter (`_PoemHTMLToMarkdown`, lines 154-302)
-- ---------------------------------------------------------------------------

/-- An `html.parser.HTMLParser` callback event.  The tokenizer itself is
Python standard library; the converter class is defined by its behaviour
on this event stream. -/
inductive Token where
  | startTag (tag : String) (attrs : List (String × String))
  | endTag (tag : String)
  | dataTok (d : String)
  | entityRef (name : String)
  | charRef (name : String)
deriving DecidableEq

/-- One entry of `self._tag_stack`: either the `{"hidden_open": True}`
marker pushed for a hidden-display tag, or the tag's attribute dict. -/
inductive StackEnt where
  | hiddenOpen
  | attrDict (a : List (String × String))
deriving DecidableEq

/-- The mutable state of a `_PoemHTMLToMarkdown` instance.  `partsRev` is
`self.parts` stored most-recent-first (Python appends to / pops from the
end of the list). -/
structure ConvState where
  partsRev : List String
  italic : Nat
  bold : Nat
  hidden : Nat
  tagStack : List (String × StackEnt)
deriving DecidableEq

/-- Python `dict(attrs).get(k, "")` — attribute lookup where a later
duplicate wins.  (A valueless attribute is modelled as `""`.) -/
def getAttr (a : List (String × String)) (k : String) : String :=
  match a.reverse.find? (fun p => p.1 == k) with
  | some p => p.2
  | none => ""

/-- Python `_PoemHTMLToMarkdown._is_italic_style`. -/
def _is_italic_style (style : String) : Bool :=
  pyContains style "font-style:italic" || pyContains style "font-style: italic"

/-- Python `_PoemHTMLToMarkdown._is_hidden_style`. -/
def _is_hidden_style (style : String) : Bool :=
  pyContains style "display:none" || pyContains style "display: none"

/-- Python `_PoemHTMLToMarkdown.handle_starttag`. -/
def handle_starttag (s : ConvState) (tag : String)
    (attrs : List (String × String)) : ConvState :=
  let style := getAttr attrs "style"
  if _is_hidden_style style then
    { s with hidden := s.hidden + 1,
             tagStack := (tag, StackEnt.hiddenOpen) :: s.tagStack }
  else
    let s1 := { s with tagStack := (tag, StackEnt.attrDict attrs) :: s.tagStack }
    if s.hidden ≠ 0 then s1
    else if tag = "i" ∨ tag = "em" then
      { s1 with partsRev := "_" :: s1.partsRev, italic := s1.italic + 1 }
    else if tag = "div" ∧ _is_italic_style style = true then
      { s1 with partsRev := "_" :: s1.partsRev, italic := s1.italic + 1 }
    else if tag = "b" ∨ tag = "strong" then
      { s1 with partsRev := "**" :: s1.partsRev, bold := s1.bold + 1 }
    else if tag = "br" then
      { s1 with partsRev := "\n" :: s1.partsRev }
    else s1

/-- The `while` loop in `handle_endtag` that pops trailing whitespace-only
parts, accumulating them in front of `acc`. -/
def takeWs : List String → String → String × List String
  | [], acc => (acc, [])
  | h :: t, acc => if pyStrip h = "" then takeWs t (h ++ acc) else (acc, h :: t)

/-- Python `_PoemHTMLToMarkdown.handle_endtag`. -/
def handle_endtag (s : ConvState) (tag : String) : ConvState :=
  let pr : StackEnt × List (String × StackEnt) :=
    match s.tagStack with
    | [] => (StackEnt.attrDict [], [])
    | (_, pe) :: r => (pe, r)
  match pr with
  | (StackEnt.hiddenOpen, stack') =>
    { s with tagStack := stack', hidden := s.hidden - 1 }
  | (StackEnt.attrDict pattrs, stack') =>
    let s1 := { s with tagStack := stack' }
    if s.hidden ≠ 0 then s1
    else if tag = "i" ∨ tag = "em" then
      if s1.italic > 0 then
        { s1 with partsRev := "_" :: s1.partsRev, italic := s1.italic - 1 }
      else s1
    else if tag = "div" then
      if s1.italic > 0 ∧ _is_italic_style (getAttr pattrs "style") = true then
        let wr := takeWs s1.partsRev ""
        let parts2 := "_" :: wr.2
        { s1 with partsRev := if wr.1 ≠ "" then wr.1 :: parts2 else parts2,
                  italic := s1.italic - 1 }
      else s1
    else if tag = "b" ∨ tag = "strong" then
      if s1.bold > 0 then
        { s1 with partsRev := "**" :: s1.partsRev, bold := s1.bold - 1 }
      else s1
    else if tag = "p" then
      { s1 with partsRev := "\n\n" :: s1.partsRev }
    else s1

/-- The cleaning applied by `handle_data`:
`data.replace('\r\n', '').replace('\r', '').replace('\n', '')`. -/
def cleanData (d : String) : String :=
  pyReplace (pyReplace (pyReplace d "\r\n" "") "\r" "") "\n" ""

/-- Python `_PoemHTMLToMarkdown.handle_data`. -/
def handle_data (s : ConvState) (d : String) : ConvState :=
  if s.hidden ≠ 0 then s
  else
    let cleaned := cleanData d
    if cleaned = "" then s else { s with partsRev := cleaned :: s.partsRev }

/-- Model of the `html.unescape` entity table (Python standard library),
restricted to the named entities relevant to this development; unknown
names are not decoded. -/
def decodeEntityName (name : String) : Option String :=
  if name = "amp" then some "&"
  else if name = "lt" then some "<"
  else if name = "gt" then some ">"
  else if name = "quot" then some "\""
  else if name = "apos" then some "'"
  else if name = "nbsp" then some " "
  else if name = "mdash" then some "—"
  else if name = "ndash" then some "–"
  else if name = "ldquo" then some "“"
  else if name = "rdquo" then some "”"
  else if name = "lsquo" then some "‘"
  else if name = "rsquo" then some "’"
  else if name = "NewLine" then some "\n"
  else if name = "Tab" then some "\t"
  else none

/-- Python `unescape(f"&{name};")` as called by `handle_entityref`. -/
def unescapeRef (name : String) : String :=
  match decodeEntityName name with
  | some r => r
  | none => "&" ++ name ++ ";"

/-- The `mapping` dict in `handle_entityref`'s curly-quote branch. -/
def quoteMapping (name : String) : String :=
  if name = "ldquo" then "“"
  else if name = "rdquo" then "”"
  else if name = "lsquo" then "‘"
  else if name = "rsquo" then "’"
  else "'"

/-- Python `_PoemHTMLToMarkdown.handle_entityref`. -/
def handle_entityref (s : ConvState) (name : String) : ConvState :=
  if s.hidden ≠ 0 then s
  else if name = "nbsp" then { s with partsRev := " " :: s.partsRev }
  else if name = "mdash" ∨ name = "#8212" then
    { s with partsRev := "—" :: s.partsRev }
  else if name = "ndash" ∨ name = "#8211" then
    { s with partsRev := "–" :: s.partsRev }
  else if name = "ldquo" ∨ name = "rdquo" ∨ name = "lsquo" ∨ name = "rsquo" then
    { s with partsRev := quoteMapping name :: s.partsRev }
  else { s with partsRev := unescapeRef name :: s.partsRev }

/-- Decimal digit parse (`python: int(name)`); `none` on a non-digit. -/
def decVal : List Char → Option Nat
  | [] => none
  | l => l.foldl (fun acc c =>
      match acc with
      | none => none
      | some n => if c.isDigit then some (n * 10 + (c.toNat - 48)) else none)
      (some 0)

/-- Hex digit value. -/
def hexDigitVal (c : Char) : Option Nat :=
  if c.isDigit then some (c.toNat - 48)
  else if 'a' ≤ c && c ≤ 'f' then some (c.toNat - 87)
  else if 'A' ≤ c && c ≤ 'F' then some (c.toNat - 55)
  else none

/-- Hex parse (`python: int(name, 16)`); `none` on a non-hex-digit. -/
def hexVal : List Char → Option Nat
  | [] => none
  | l => l.foldl (fun acc c =>
      match acc with
      | none => none
      | some n =>
        match hexDigitVal c with
        | some v => some (n * 16 + v)
        | none => none)
      (some 0)

/-- Python `_PoemHTMLToMarkdown.handle_charref`.  (Python's `chr` also
accepts surrogate code points, which Lean `Char` cannot represent; those
take the fallback branch here.  No claim depends on surrogates.) -/
def handle_charref (s : ConvState) (name : String) : ConvState :=
  if s.hidden ≠ 0 then s
  else
    let v : Option Nat :=
      if pyStartsWith name "x" then hexVal (name.data.drop 1)
      else decVal name.data
    let out : String :=
      match v with
      | some n =>
        if n < 0x110000 && !(0xD800 ≤ n && n < 0xE000) then ⟨[Char.ofNat n]⟩
        else "&#" ++ name ++ ";"
      | none => "&#" ++ name ++ ";"
    { s with partsRev := out :: s.partsRev }

/-- Dispatch one parser callback. -/
def step (s : ConvState) : Token → ConvState
  | Token.startTag tag attrs => handle_starttag s tag attrs
  | Token.endTag tag => handle_endtag s tag
  | Token.dataTok d => handle_data s d
  | Token.entityRef n => handle_entityref s n
  | Token.charRef n => handle_charref s n

/-- Feed a whole event stream. -/
def run (s : ConvState) (ts : List Token) : ConvState := ts.foldl step s

/-- A freshly constructed `_PoemHTMLToMarkdown()`. -/
def initState : ConvState := ⟨[], 0, 0, 0, []⟩

/-- Python `"".join(self.parts)` as a character list. -/
def joinedPartsL (s : ConvState) : List Char :=
  (s.partsRev.reverse.map String.data).flatten

/-- Python `_PoemHTMLToMarkdown.get_markdown`. -/
def get_markdown (s : ConvState) : String := ⟨joinedPartsL s⟩

-- ---------------------------------------------------------------------------
-- Whitespace normalisation (html_to_markdown lines 296-302)
-- ---------------------------------------------------------------------------

/-- Scanner for `re.sub(r"\n{3,}", "\n\n", ·)`: each maximal run of `n ≥ 3` newlines
becomes exactly two; the `Nat` argument counts the pending run. -/
def collapseNlGo : List Char → Nat → List Char
  | [], n => List.replicate (if n ≥ 3 then 2 else n) '\n'
  | c :: t, n =>
    if c = '\n' then collapseNlGo t (n + 1)
    else List.replicate (if n ≥ 3 then 2 else n) '\n' ++ c :: collapseNlGo t 0

/-- Python `re.sub(r"\n{3,}", "\n\n", s)`. -/
def collapseNewlines (s : String) : String := ⟨collapseNlGo s.data 0⟩

/-- The characters `str.splitlines` breaks on. -/
def isLineBreakChar (c : Char) : Bool :=
  c == '\n' || c == '\r' || c == Char.ofNat 11 || c == Char.ofNat 12 ||
  c == Char.ofNat 28 || c == Char.ofNat 29 || c == Char.ofNat 30 ||
  c == Char.ofNat 133 || c == Char.ofNat 0x2028 || c == Char.ofNat 0x2029

/-- Worker for `pySplitlines`; the accumulator is the current line,
reversed. -/
def splitlinesGo : List Char → List Char → List String
  | [], acc => if acc.isEmpty then [] else [⟨acc.reverse⟩]
  | '\r' :: '\n' :: t, acc => ⟨acc.reverse⟩ :: splitlinesGo t []
  | c :: t, acc =>
    if isLineBreakChar c then ⟨acc.reverse⟩ :: splitlinesGo t []
    else splitlinesGo t (c :: acc)

/-- Python `s.splitlines()`. -/
def pySplitlines (s : String) : List String := splitlinesGo s.data []

/-- The whitespace normalisation at the end of `html_to_markdown`:
collapse 3-or-more newlines to 2, right-trim every line, trim the whole
result. -/
def pyNormalize (text : String) : String :=
  pyStrip (String.intercalate "\n" ((pySplitlines (collapseNewlines text)).map pyRstrip))

-- ---------------------------------------------------------------------------
-- Tokenizer (model of html.parser.HTMLParser with convert_charrefs=True)
-- ---------------------------------------------------------------------------

/-- Index of the first `'>'`. -/
def idxOfGt : List Char → Option Nat
  | [] => none
  | c :: t => if c == '>' then some 0 else (idxOfGt t).map (· + 1)

/-- Is `c` an ASCII letter? -/
def isAsciiLetter (c : Char) : Bool :=
  ('a' ≤ c && c ≤ 'z') || ('A' ≤ c && c ≤ 'Z')

/-- Characters allowed in a tag name by the tolerant stdlib parser. -/
def isTagNameChar (c : Char) : Bool :=
  c.isAlphanum || c == '-' || c == '.' || c == ':' || c == '_'

/-- Decode a character/entity reference starting right after a `'&'`.
Returns the decoded characters and the count of characters consumed
(model of the stdlib's `convert_charrefs=True` handling for
semicolon-terminated references; anything else stays literal text). -/
def parseRefAt (l : List Char) : Option (List Char × Nat) :=
  match l with
  | '#' :: r =>
    match r with
    | 'x' :: r2 =>
      let ds := r2.takeWhile (fun c => (hexDigitVal c).isSome)
      if !ds.isEmpty && listPref [';'] (r2.drop ds.length) then
        match hexVal ds with
        | some n =>
          if n < 0x110000 && !(0xD800 ≤ n && n < 0xE000) && n ≠ 0 then
            some ([Char.ofNat n], ds.length + 3)
          else none
        | none => none
      else none
    | _ =>
      let ds := r.takeWhile Char.isDigit
      if !ds.isEmpty && listPref [';'] (r.drop ds.length) then
        match decVal ds with
        | some n =>
          if n < 0x110000 && !(0xD800 ≤ n && n < 0xE000) && n ≠ 0 then
            some ([Char.ofNat n], ds.length + 2)
          else none
        | none => none
      else none
  | _ =>
    let nm := l.takeWhile Char.isAlphanum
    if !nm.isEmpty && listPref [';'] (l.drop nm.length) then
      match decodeEntityName ⟨nm⟩ with
      | some r => some (r.data, nm.length + 1)
      | none => none
    else none

/-- Entity-unescape an attribute value (the stdlib unescapes attribute
values before reporting them); skip-counter structural recursion. -/
def unescGo : List Char → Nat → List Char
  | [], _ => []
  | _ :: t, Nat.succ k => unescGo t k
  | c :: t, 0 =>
    if c == '&' then
      match parseRefAt t with
      | some (dec, consumed) => dec ++ unescGo t consumed
      | none => '&' :: unescGo t 0
    else c :: unescGo t 0

/-- Parse the attribute region of a start-tag chunk (model of the
stdlib's tolerant attribute scanner; a valueless attribute becomes `""`).
The fuel is bounded by the chunk length. -/
def parseAttrs : Nat → List Char → List (String × String)
  | 0, _ => []
  | Nat.succ f, l =>
    let l1 := l.dropWhile (fun c => pyIsSpace c || c == '/')
    match l1 with
    | [] => []
    | _ =>
      let nameCs := l1.takeWhile (fun c => !pyIsSpace c && c != '=' && c != '/')
      let aname := pyLower ⟨nameCs⟩
      let rest1 := (l1.drop nameCs.length).dropWhile pyIsSpace
      match rest1 with
      | '=' :: r3 =>
        let r4 := r3.dropWhile pyIsSpace
        match r4 with
        | '"' :: r5 =>
          let v := r5.takeWhile (fun c => c != '"')
          (aname, ⟨unescGo v 0⟩) :: parseAttrs f (r5.drop (v.length + 1))
        | '\'' :: r5 =>
          let v := r5.takeWhile (fun c => c != '\'')
          (aname, ⟨unescGo v 0⟩) :: parseAttrs f (r5.drop (v.length + 1))
        | _ =>
          let v := r4.takeWhile (fun c => !pyIsSpace c)
          (aname, ⟨unescGo v 0⟩) :: parseAttrs f (r4.drop v.length)
      | _ => (aname, "") :: parseAttrs f rest1

/-- Parse the inside of a start tag (between `<` and `>`). -/
def parseStartChunk (chunk : List Char) : String × List (String × String) × Bool :=
  let selfClosing := chunk.getLast? = some '/'
  let body := if selfClosing then chunk.dropLast else chunk
  let nameCs := body.takeWhile (fun c => !pyIsSpace c && c != '/')
  let name := pyLower ⟨nameCs⟩
  (name, parseAttrs (body.length + 1) (body.drop nameCs.length), selfClosing)

/-- Parse the inside of an end tag (between `</` and `>`). -/
def parseEndChunk (chunk : List Char) : String :=
  pyLower ⟨(chunk.dropWhile pyIsSpace).takeWhile isTagNameChar⟩

/-- Flush pending text (reversed accumulator) as a data event. -/
def flushT (acc : List Char) (rest : List Token) : List Token :=
  if acc.isEmpty then rest else Token.dataTok ⟨acc.reverse⟩ :: rest

/-- Tokenizer worker: `l` is the remaining input, `acc` the pending text
(reversed), and the `Nat` a count of characters still to skip. -/
def tokGo : List Char → List Char → Nat → List Token
  | [], acc, _ => flushT acc []
  | c :: t, acc, skip =>
    match skip with
    | Nat.succ k => tokGo t acc k
    | 0 =>
      if c == '<' then
        match t with
        | '/' :: t2 =>
          match idxOfGt t2 with
          | some i =>
            flushT acc
              (Token.endTag (parseEndChunk (t2.take i)) :: tokGo t [] (i + 2))
          | none => tokGo t ('<' :: acc) 0
        | d :: _ =>
          if isAsciiLetter d then
            match idxOfGt t with
            | some i =>
              let pc := parseStartChunk (t.take i)
              flushT acc
                (Token.startTag pc.1 pc.2.1 ::
                  (if pc.2.2 then [Token.endTag pc.1] else []) ++ tokGo t [] (i + 1))
            | none => tokGo t ('<' :: acc) 0
          else if d == '!' then
            match idxOfGt t with
            | some i => flushT acc (tokGo t [] (i + 1))
            | none => tokGo t ('<' :: acc) 0
          else tokGo t ('<' :: acc) 0
        | [] => tokGo t ('<' :: acc) 0
      else if c == '&' then
        match parseRefAt t with
        | some (dec, consumed) => tokGo t (dec.reverse ++ acc) consumed
        | none => tokGo t ('&' :: acc) 0
      else tokGo t (c :: acc) 0

/-- Tokenize an HTML fragment (model of `HTMLParser.feed`). -/
def tokenize (s : String) : List Token := tokGo s.data [] 0

/-- Python `html_to_markdown(html_fragment)`. -/
def html_to_markdown (html_fragment : String) : String :=
  pyNormalize (get_markdown (run initState (tokenize html_fragment)))

-- ---------------------------------------------------------------------------
-- Lemmas about the replace scanner
-- ---------------------------------------------------------------------------

/-- Replacing with the empty string only ever removes characters. -/
theorem mem_replL_nil_rep (pat : List Char) :
    ∀ (l : List Char) (k : Nat) (x : Char), x ∈ replL pat [] l k → x ∈ l := by
  intro l
  induction l with
  | nil => intro k x h; simp [replL] at h
  | cons c t ih =>
    intro k x h
    cases k with
    | succ k => exact List.mem_cons_of_mem c (ih k x h)
    | zero =>
      rw [replL] at h
      split at h
      · simp only [List.nil_append] at h
        exact List.mem_cons_of_mem c (ih _ x h)
      · rcases List.mem_cons.mp h with rfl | h'
        · exact List.mem_cons_self _ _
        · exact List.mem_cons_of_mem c (ih 0 x h')

/-- The empty pattern is a prefix of everything. -/
theorem listPref_nil (l : List Char) : listPref [] l = true := by
  cases l <;> rfl

/-- Deleting every occurrence of the single character `p` leaves no `p`. -/
theorem not_mem_replL_single (p : Char) :
    ∀ (l : List Char) (k : Nat), p ∉ replL [p] [] l k := by
  intro l
  induction l with
  | nil => intro k; simp [replL]
  | cons c t ih =>
    intro k
    cases k with
    | succ k => exact ih k
    | zero =>
      rw [replL]
      split
      · simpa using ih 0
      · rename_i hml
        intro hmem
        rcases List.mem_cons.mp hmem with rfl | h'
        · simp [listPref, listPref_nil] at hml
        · exact ih 0 h'

/-- If the pattern's first character never occurs, `replace` is the
identity. -/
theorem replL_id_of_head_not_mem (p : Char) (ps rep : List Char) :
    ∀ (l : List Char), p ∉ l → replL (p :: ps) rep l 0 = l := by
  intro l
  induction l with
  | nil => simp [replL]
  | cons c t ih =>
    intro h
    rw [replL]
    have hpc : ¬(p == c) = true := by
      simp only [beq_iff_eq]
      intro hh; exact h (hh ▸ List.mem_cons_self p t)
    have : listPref (p :: ps) (c :: t) = false := by
      simp [listPref, Bool.eq_false_iff.mpr hpc]
    simp only [this, if_neg, Bool.false_eq_true, not_false_eq_true]
    rw [ih (fun hm => h (List.mem_cons_of_mem c hm))]

/-- The `cleanData` output never contains a raw LF or CR. -/
theorem cleanData_no_raw_newlines (d : String) :
    ∀ c ∈ (cleanData d).data, c ≠ '\n' ∧ c ≠ '\r' := by
  intro c hc
  have hdata : cleanData d =
      ⟨replL ['\n'] []
        (replL ['\r'] [] (pyReplace d "\r\n" "").data 0) 0⟩ := by
    rfl
  rw [hdata] at hc
  constructor
  · intro rfl_eq
    exact not_mem_replL_single '\n' _ 0 (rfl_eq ▸ hc)
  · intro rfl_eq
    have h2 := mem_replL_nil_rep ['\n'] _ 0 c hc
    exact not_mem_replL_single '\r' _ 0 (rfl_eq ▸ h2)

-- ---------------------------------------------------------------------------
-- C10: raw newlines in text data are deleted
-- ---------------------------------------------------------------------------

/-- C10: outside a hidden context, `handle_data` appends exactly the
`cleanData` of its argument to the output, and that string contains no
raw newline or carriage-return characters — so every newline in converter
output comes from a `<br>`/`</p>` handler or a decoded reference, never
from literal source whitespace. -/
theorem handle_data_deletes_raw_newlines (s : ConvState) (d : String)
    (h : s.hidden = 0) :
    joinedPartsL (handle_data s d) = joinedPartsL s ++ (cleanData d).data
    ∧ ∀ c ∈ (cleanData d).data, c ≠ '\n' ∧ c ≠ '\r' := by
  refine ⟨?_, cleanData_no_raw_newlines d⟩
  unfold handle_data
  rw [if_neg (by simp [h])]
  by_cases hcl : cleanData d = ""
  · simp [hcl]
  · simp only [hcl, if_neg, reduceIte]
    simp [joinedPartsL]

/-- Witness for C10 at a concrete state and data chunk. -/
theorem handle_data_deletes_raw_newlines_witness :
    (joinedPartsL (handle_data initState "a\r\nb\nc") =
       joinedPartsL initState ++ (cleanData "a\r\nb\nc").data
     ∧ ∀ c ∈ (cleanData "a\r\nb\nc").data, c ≠ '\n' ∧ c ≠ '\r')
    ∧ cleanData "a\r\nb\nc" = "abc" :=
  ⟨handle_data_deletes_raw_newlines initState "a\r\nb\nc" rfl, by decide⟩

-- ---------------------------------------------------------------------------
-- C2: hidden-display content is fully suppressed
-- ---------------------------------------------------------------------------

/-- Does this event open a hidden-display styling context? -/
def isHiddenStart : Token → Bool
  | Token.startTag _ attrs => _is_hidden_style (getAttr attrs "style")
  | _ => false

/-- C2: while the hidden-context counter is positive every callback —
text data, references, and the hidden region's own tags (including the
tag that opens it) — leaves the output untouched, at any nesting depth;
illustrated end-to-end on a fragment with nested markup inside a hidden
span. -/
theorem hidden_context_suppressed :
    (∀ (s : ConvState) (t : Token),
        s.hidden ≠ 0 ∨ isHiddenStart t = true →
        (step s t).partsRev = s.partsRev)
    ∧ html_to_markdown
        "<span style=\"display:none\">gloss <i>nested</i> deep</span>Visible"
        = "Visible" := by
  constructor
  · intro s t h
    cases t with
    | startTag tag attrs =>
      unfold step handle_starttag
      by_cases hh : _is_hidden_style (getAttr attrs "style") = true
      · simp [hh]
      · have hhid : s.hidden ≠ 0 := by
          rcases h with h1 | h2
          · exact h1
          · exact absurd h2 (by simpa [isHiddenStart] using hh)
        simp [hh, hhid]
    | endTag tag =>
      have hhid : s.hidden ≠ 0 := by
        rcases h with h1 | h2
        · exact h1
        · exact absurd h2 (by simp [isHiddenStart])
      unfold step handle_endtag
      cases hst : s.tagStack with
      | nil => simp [hhid]
      | cons top rest =>
        obtain ⟨tg, pe⟩ := top
        cases pe with
        | hiddenOpen => simp
        | attrDict pattrs => simp [hhid]
    | dataTok d =>
      have hhid : s.hidden ≠ 0 := by
        rcases h with h1 | h2
        · exact h1
        · exact absurd h2 (by simp [isHiddenStart])
      unfold step handle_data
      simp [hhid]
    | entityRef n =>
      have hhid : s.hidden ≠ 0 := by
        rcases h with h1 | h2
        · exact h1
        · exact absurd h2 (by simp [isHiddenStart])
      unfold step handle_entityref
      simp [hhid]
    | charRef n =>
      have hhid : s.hidden ≠ 0 := by
        rcases h with h1 | h2
        · exact h1
        · exact absurd h2 (by simp [isHiddenStart])
      unfold step handle_charref
      simp [hhid]
  · decide

/-- Witness for C2: inside a hidden context a data callback emits
nothing. -/
theorem hidden_context_suppressed_witness :
    (step ⟨["x"], 0, 0, 1, []⟩ (Token.dataTok "secret")).partsRev = ["x"] :=
  hidden_context_suppressed.1 ⟨["x"], 0, 0, 1, []⟩ (Token.dataTok "secret")
    (Or.inl (by decide))

-- ---------------------------------------------------------------------------
-- C6: idempotence on already-converted plain text
-- ---------------------------------------------------------------------------

/-- On input free of `<` and `&` the tokenizer yields one data event. -/
theorem tokGo_all_text :
    ∀ (l acc : List Char), (∀ c ∈ l, c ≠ '<' ∧ c ≠ '&') →
      tokGo l acc 0 = flushT (l.reverse ++ acc) [] := by
  intro l
  induction l with
  | nil => intro acc _; rw [tokGo.eq_def]; simp
  | cons c t ih =>
    intro acc h
    have hc := h c (List.mem_cons_self c t)
    have h1 : (c == '<') = false := by simp [hc.1]
    have h2 : (c == '&') = false := by simp [hc.2]
    rw [tokGo.eq_def]
    simp only [h1, h2, Bool.false_eq_true, if_false]
    rw [ih (c :: acc) (fun x hx => h x (List.mem_cons_of_mem c hx))]
    simp

/-- The function `cleanData` is the identity on CR/LF-free strings. -/
theorem cleanData_id (s : String)
    (h : ∀ c ∈ s.data, c ≠ '\r' ∧ c ≠ '\n') : cleanData s = s := by
  have hr : '\r' ∉ s.data := fun hm => (h _ hm).1 rfl
  have hn : '\n' ∉ s.data := fun hm => (h _ hm).2 rfl
  have e1 : pyReplace s "\r\n" "" = s := by
    show (if (("\r\n" : String)).data.isEmpty then s
          else ⟨replL ("\r\n").data "".data s.data 0⟩) = s
    rw [if_neg (by decide)]
    show (⟨replL ['\r', '\n'] [] s.data 0⟩ : String) = s
    rw [replL_id_of_head_not_mem '\r' ['\n'] [] s.data hr]
  have e2 : pyReplace s "\r" "" = s := by
    show (if (("\r" : String)).data.isEmpty then s
          else ⟨replL ("\r").data "".data s.data 0⟩) = s
    rw [if_neg (by decide)]
    show (⟨replL ['\r'] [] s.data 0⟩ : String) = s
    rw [replL_id_of_head_not_mem '\r' [] [] s.data hr]
  have e3 : pyReplace s "\n" "" = s := by
    show (if (("\n" : String)).data.isEmpty then s
          else ⟨replL ("\n").data "".data s.data 0⟩) = s
    rw [if_neg (by decide)]
    show (⟨replL ['\n'] [] s.data 0⟩ : String) = s
    rw [replL_id_of_head_not_mem '\n' [] [] s.data hn]
  unfold cleanData
  rw [e1, e2, e3]

/-- C6 (amended): on input with no markup tags, no entity-reference
ampersands and no raw CR/LF characters, the converter output equals the
input modulo the final whitespace normalisation.  (Raw newlines in the
input are *deleted* by `handle_data`, not preserved — see the
counterexample.) -/
theorem converter_plain_text_normalized (s : String)
    (h : ∀ c ∈ s.data, c ≠ '<' ∧ c ≠ '&' ∧ c ≠ '\r' ∧ c ≠ '\n') :
    html_to_markdown s = pyNormalize s := by
  have htok : tokenize s = flushT (s.data.reverse ++ []) [] := by
    unfold tokenize
    exact tokGo_all_text s.data [] (fun c hc => ⟨(h c hc).1, (h c hc).2.1⟩)
  by_cases hne : s.data = []
  · have hs : s = "" := by
      cases s with
      | mk d => simp_all
    subst hs
    rfl
  · have htok2 : tokenize s = [Token.dataTok s] := by
      rw [htok]
      unfold flushT
      rw [if_neg (by simpa using fun hc => hne (List.reverse_eq_nil_iff.mp hc))]
      simp only [List.append_nil, List.reverse_reverse]
    have hclean : cleanData s = s :=
      cleanData_id s (fun c hc => ⟨(h c hc).2.2.1, (h c hc).2.2.2⟩)
    have hsne : s ≠ "" := by
      intro hh
      apply hne
      rw [hh]
    have hrun : run initState [Token.dataTok s] = handle_data initState s := rfl
    have hd : handle_data initState s =
        { partsRev := [s], italic := 0, bold := 0, hidden := 0,
          tagStack := [] } := by
      simp [handle_data, hclean, hsne, initState]
    unfold html_to_markdown
    rw [htok2, hrun, hd]
    congr 1
    simp [get_markdown, joinedPartsL]

/-- Witness for C6's amended theorem. -/
theorem converter_plain_text_normalized_witness :
    html_to_markdown "x  y" = pyNormalize "x  y" :=
  converter_plain_text_normalized "x  y" (by decide)

/-- C6 counterexample: on tag-free input containing a raw newline the
converter output is *not* the normalised input — the newline is deleted
(`html_to_markdown "a\nb" = "ab"` while normalisation keeps `"a\nb"`). -/
theorem converter_counterexample_newline :
    html_to_markdown "a\nb" ≠ pyNormalize "a\nb" := by decide

-- ---------------------------------------------------------------------------
-- Markdown → poem parsing (`parse_poem_markdown`, lines 456-556)
-- ---------------------------------------------------------------------------

/-- Lookahead for `re.search(r"^Title:\s*(.+)", header, re.M)` after a
line-start `"Title:"`: skip whitespace (which in Python regex includes
newlines), then capture to the end of that line; when only whitespace
remains, backtracking can still capture a final non-newline whitespace
character. -/
def jinaTitleAttempt (rest : List Char) : Option (List Char) :=
  let ws := rest.takeWhile pyIsSpace
  match rest.drop ws.length with
  | c :: t => some ((c :: t).takeWhile (fun x => x != '\n'))
  | [] =>
    match ws.getLast? with
    | some w => if w ≠ '\n' then some [w] else none
    | none => none

/-- Scan for the first line-start `"Title:"` whose lookahead matches;
returns the captured group, stripped (`""` when absent). -/
def jinaTitleGo : List Char → Bool → String
  | [], _ => ""
  | c :: t, atStart =>
    if atStart && listPref ("Title:").data (c :: t) then
      match jinaTitleAttempt ((c :: t).drop 6) with
      | some g => pyStrip ⟨g⟩
      | none => jinaTitleGo t (c == '\n')
    else jinaTitleGo t (c == '\n')

/-- Extract the `Title:` field from a Jina metadata header. -/
def findJinaTitle (header : String) : String := jinaTitleGo header.data true

/-- Lookahead for one match of `\[([^\]]+)\]\([^)]+\)` starting at a `'['`
(whose tail is the argument): returns the captured label and the total
match length. -/
def mdLinkPlusAt (t : List Char) : Option (List Char × Nat) :=
  let label := t.takeWhile (fun c => c != ']')
  if label.isEmpty then none
  else
    match t.drop label.length with
    | ']' :: '(' :: r2 =>
      let inside := r2.takeWhile (fun c => c != ')')
      if inside.isEmpty then none
      else
        match r2.drop inside.length with
        | ')' :: _ => some (label, label.length + inside.length + 4)
        | _ => none
    | _ => none

/-- Worker for `_strip_md_links` (skip-counter recursion). -/
def stripMdLinksGo : List Char → Nat → List Char
  | [], _ => []
  | _ :: t, Nat.succ k => stripMdLinksGo t k
  | c :: t, 0 =>
    if c == '[' then
      match mdLinkPlusAt t with
      | some p => p.1 ++ stripMdLinksGo t (p.2 - 1)
      | none => '[' :: stripMdLinksGo t 0
    else c :: stripMdLinksGo t 0

/-- Python `_strip_md_links(text)` — flatten `[text](url)` to `text`. -/
def _strip_md_links (text : String) : String := ⟨stripMdLinksGo text.data 0⟩

/-- Python `set(line.strip()) == {"="}` — a non-empty all-`=` string. -/
def eqRun (s : String) : Bool := !s.data.isEmpty && s.data.all (fun c => c == '=')

/-- The setext-heading scan: remember the *last* heading (its stripped
text and the index just past its underline). -/
def setextGo : List String → Nat → (String × Nat) → (String × Nat)
  | a :: b :: rest, i, best =>
    setextGo (b :: rest) (i + 1)
      (if pyStrip a ≠ "" ∧ eqRun (pyStrip b) = true then (pyStrip a, i + 2)
       else best)
  | _, _, best => best

/-- The inner loop of the bare-`By` branch: first non-blank line from
index `j` on, with its index. -/
def findNonBlankFrom : List String → Nat → Option (String × Nat)
  | [], _ => none
  | ln :: rest, j =>
    if pyStrip ln ≠ "" then some (pyStrip ln, j)
    else findNonBlankFrom rest (j + 1)

/-- The author-detection loop: scan from `start`, looking for `By …` or a
bare `By`; give up (author `""`, end index unchanged) once `i` exceeds
`start + 30` without a match. -/
def authorGo (start : Nat) : List String → Nat → String × Nat
  | [], _ => ("", start)
  | ln :: rest, i =>
    let st := pyStrip ln
    if pyStartsWith (pyLower st) "by " then (pyStrip ⟨st.data.drop 3⟩, i + 1)
    else if pyLower st = "by" then
      match findNonBlankFrom rest (i + 1) with
      | some aj => (aj.1, aj.2 + 1)
      | none => ("", start)
    else if i > start + 30 then ("", start)
    else authorGo start rest (i + 1)

/-- Author scan over the full line list starting at `start`. -/
def authorScan (lines : List String) (start : Nat) : String × Nat :=
  authorGo start (lines.drop start) start

/-- First index where `pat` occurs case-insensitively. -/
def findCISubIdx (pat : List Char) : List Char → Option Nat
  | [] => if pat.isEmpty then some 0 else none
  | c :: t =>
    if listPrefCI pat (c :: t) then some 0
    else (findCISubIdx pat t).map (· + 1)

/-- Number of whitespace characters immediately before index `q`. -/
def wsRunBack (l : List Char) (q : Nat) : Nat :=
  ((l.take q).reverse.takeWhile pyIsSpace).length

/-- Python `re.sub(r"\s*Listen.*$", "", author, flags=re.I)` for the
single-line strings this is applied to: truncate at the leftmost
match start. -/
def cutListen (author : String) : String :=
  match findCISubIdx ("Listen").data author.data with
  | some q => ⟨author.data.take (q - wsRunBack author.data q)⟩
  | none => author

/-- Does `\s*\d{4}\s*[-–—]` match a prefix of `l`? -/
def dateMatchAt (l : List Char) : Bool :=
  let r1 := l.dropWhile pyIsSpace
  if (r1.takeWhile Char.isDigit).length = 4 then
    match (r1.drop 4).dropWhile pyIsSpace with
    | c :: _ => c == '-' || c == '–' || c == '—'
    | [] => false
  else false

/-- Leftmost index at which `dateMatchAt` succeeds. -/
def dateCutGo : List Char → Nat → Option Nat
  | [], _ => none
  | c :: t, i => if dateMatchAt (c :: t) then some i else dateCutGo t (i + 1)

/-- Python `re.sub(r"\s*\d{4}\s*[-–—].*$", "", author)` for single-line
strings. -/
def cutDate (author : String) : String :=
  match dateCutGo author.data 0 with
  | some p => ⟨author.data.take p⟩
  | none => author

/-- ASCII model of the regex `\w` class. -/
def isWordChar (c : Char) : Bool := c.isAlphanum || c == '_'

/-- Match one alternative of an `^(alt1|alt2|…)\b`-shaped pattern,
case-insensitively, including the trailing word-boundary test. -/
def altMatch (s : String) (alt : String) : Bool :=
  listPrefCI alt.data s.data &&
    (match alt.data.getLast? with
     | none => false
     | some lastc =>
       match s.data.drop alt.data.length with
       | [] => isWordChar lastc
       | n :: _ => isWordChar lastc != isWordChar n)

/-- The alternatives of `_PRE_SKIP_PATTERN` (the class `Source[:.]`
expanded to its two characters). -/
def preSkipAlts : List String :=
  ["Poems & Poets", "Topics & Themes", "Features", "Grants & Programs",
   "About Us", "Poetry magazine", "Subscribe", "Related", "More by",
   "Advertise", "Copyright", "Source:", "Source.", "Share",
   "A note from the editor", "Sign Up", "RECENT POEMS OF THE DAY",
   "Poetry Foundation Homepage", "Skip to main content", "Read More",
   "Donate", "Listen", "January", "February", "March", "April", "May",
   "June", "July", "August", "September", "October", "November",
   "December"]

/-- The alternatives of `_POST_STOP_PATTERN` (no month names). -/
def postStopAlts : List String :=
  ["Poems & Poets", "Topics & Themes", "Features", "Grants & Programs",
   "About Us", "Poetry magazine", "Subscribe", "Related", "More by",
   "Advertise", "A note from the editor", "Sign Up",
   "RECENT POEMS OF THE DAY", "Poetry Foundation Homepage",
   "Skip to main content", "Donate", "THIS POEM HAS A POEM GUIDE",
   "View Poem Guide"]

/-- Python `_PRE_SKIP_PATTERN.match(stripped)` as a Boolean. -/
def preSkipMatch (s : String) : Bool := preSkipAlts.any (altMatch s)

/-- Python `_POST_STOP_PATTERN.match(stripped)` as a Boolean. -/
def postStopMatch (s : String) : Bool := postStopAlts.any (altMatch s)

/-- Python `re.match(r"^#{2,}\s", stripped)` as a Boolean. -/
def headingMatch (s : String) : Bool :=
  let run := s.data.takeWhile (fun c => c == '#')
  run.length ≥ 2 &&
    (match s.data.drop run.length with
     | c :: _ => pyIsSpace c
     | [] => false)

/-- Python `re.match(r"^[-_*]{3,}\s*$", stripped)` as a Boolean. -/
def hrMatch (s : String) : Bool :=
  let run := s.data.takeWhile (fun c => c == '-' || c == '_' || c == '*')
  run.length ≥ 3 && (s.data.drop run.length).all pyIsSpace

/-- Python `re.match(r"^(Copyright|Source[:\s])", stripped, re.I)`. -/
def copyrightMatch (s : String) : Bool :=
  listPrefCI ("Copyright").data s.data ||
  (listPrefCI ("Source").data s.data &&
    (match s.data.drop 6 with
     | c :: _ => c == ':' || pyIsSpace c
     | [] => false))

/-- Python `_BOILERPLATE_EXACT`. -/
def _BOILERPLATE_EXACT : List String :=
  ["Share", "Play Audio", "Donate", "Listen", "Read More", "Read more"]

/-- The body-accumulation loop of `parse_poem_markdown`: skip blanks and
boilerplate until the body starts, then collect lines until a stop
pattern, heading, horizontal rule, or copyright/source line. -/
def bodyGo : List String → Bool → List String
  | [], _ => []
  | ln :: rest, started =>
    let stripped := pyStrip ln
    if !started &&
        (stripped = "" || _BOILERPLATE_EXACT.contains stripped ||
         pyStartsWith stripped "[](" || preSkipMatch stripped) then
      bodyGo rest false
    else
      if postStopMatch stripped || headingMatch stripped ||
         hrMatch stripped || copyrightMatch stripped then []
      else ln :: bodyGo rest true

/-- Drop leading and trailing blank lines. -/
def trimBlankEnds (ls : List String) : List String :=
  ((ls.dropWhile (fun l => pyStrip l == "")).reverse.dropWhile
      (fun l => pyStrip l == "")).reverse

/-- Python `parse_poem_markdown(text)` — the Markdown Extractor. -/
def parse_poem_markdown (text : String) : PoemRecord :=
  let hdr : String × String :=
    if pyContains text "Markdown Content:" then
      let p := pySplitOnce text "Markdown Content:"
      (findJinaTitle p.1, p.2)
    else ("", text)
  let jina_title := hdr.1
  let lines := (pySplitlines hdr.2).map (fun ln => _strip_md_links (pyRstrip ln))
  let tr := setextGo lines 0 ("", 0)
  let title1 :=
    if pyContains tr.1 " | " then pyStrip (pySplitOnce tr.1 " | ").1 else tr.1
  let title := if jina_title ≠ "" then jina_title else title1
  let ar := authorScan lines tr.2
  let author := pyStrip (cutDate (pyStrip (cutListen ar.1)))
  let body_lines := trimBlankEnds (bodyGo (lines.drop ar.2) false)
  { title := title, author := author, poem := String.intercalate "\n" body_lines }

/-- C8: on the two-setext-heading page, the Markdown Extractor takes the
*last* heading as the title (site suffix already absent there), the
`By`-line author, and the following lines as body. -/
theorem parse_poem_markdown_two_headings :
    parse_poem_markdown
      "Poem of the Day | Site Name\n===\n...\nActual Title\n===\nBy Jane Poet\n\nLine1\nLine2"
      = ⟨"Actual Title", "Jane Poet", "Line1\nLine2"⟩ := by decide

/-- C5 counterexample: on input with a title heading and body but *no*
author line, the extractor does not treat the extraction as empty — it
returns a full record with an empty author, not an empty record. -/
theorem parse_poem_markdown_counterexample_no_author :
    (parse_poem_markdown "T\n===\nLine1\nLine2").author = ""
    ∧ parse_poem_markdown "T\n===\nLine1\nLine2" ≠ ⟨"", "", ""⟩ := by
  constructor
  · decide
  · decide

/-- C5 (amended): when no author line is found within the bounded window,
the extractor still returns the parsed title and body with the author
left empty; no empty-record signalling exists in the code (invalid
extractions are only caught later by the Validator). -/
theorem parse_poem_markdown_no_author_keeps_record :
    parse_poem_markdown "T\n===\nLine1\nLine2" = ⟨"T", "", "Line1\nLine2"⟩ := by
  decide

-- ---------------------------------------------------------------------------
-- URL extraction (`extract_poem_url`, lines 420-449)
-- ---------------------------------------------------------------------------

/-- Length of the match of `_POEM_URL_RE` at the head of `l`
(`https?://(?:www\.)?poetryfoundation\.org/(?:poems|poetrymagazine/poems)/\d+[^\s)\]"']*`,
case-insensitive), or `none`. -/
def matchPoemUrlLen (l : List Char) : Option Nat :=
  let afterScheme : Option (Nat × List Char) :=
    if listPrefCI ("https://").data l then some (8, l.drop 8)
    else if listPrefCI ("http://").data l then some (7, l.drop 7)
    else none
  match afterScheme with
  | none => none
  | some (n1, r1) =>
    let n2 := if listPrefCI ("www.").data r1 then n1 + 4 else n1
    let r2 := if listPrefCI ("www.").data r1 then r1.drop 4 else r1
    if listPrefCI ("poetryfoundation.org/").data r2 then
      let n3 := n2 + 21
      let r3 := r2.drop 21
      let alt : Option (Nat × List Char) :=
        if listPrefCI ("poems/").data r3 then some (n3 + 6, r3.drop 6)
        else if listPrefCI ("poetrymagazine/poems/").data r3 then
          some (n3 + 21, r3.drop 21)
        else none
      match alt with
      | none => none
      | some (n4, r4) =>
        let ds := r4.takeWhile Char.isDigit
        if ds.isEmpty then none
        else
          let tailcs := (r4.drop ds.length).takeWhile
            (fun c => !(pyIsSpace c || c == ')' || c == ']' ||
                        c == '"' || c == '\''))
          some (n4 + ds.length + tailcs.length)
    else none

/-- Python `_is_individual_poem(url)`. -/
def _is_individual_poem (url : String) : Bool :=
  (matchPoemUrlLen url.data).isSome &&
    !(pyContains (pyLower url) "poem-of-the-day")

/-- The trailing-punctuation class of `_clean_url`
(`[\s"'`.,;:!?\])}>]`; the backtick and closing brace written via
code points). -/
def isCleanStripChar (c : Char) : Bool :=
  pyIsSpace c || c == '"' || c == '\'' || c == Char.ofNat 96 || c == '.' ||
  c == ',' || c == ';' || c == ':' || c == '!' || c == '?' || c == ']' ||
  c == ')' || c == Char.ofNat 125 || c == '>'

/-- Python `_clean_url(url)`. -/
def _clean_url (url : String) : String :=
  ⟨((pyStrip url).data.reverse.dropWhile isCleanStripChar).reverse⟩

/-- Lookahead for one match of `\[([^\]]*)\]\((https?://[^)]+)\)` at a
`'['` (whose tail is the argument): the URL group and total match
length.  The label may be empty and is never inspected. -/
def mdLinkUrlAt (t : List Char) : Option (List Char × Nat) :=
  let label := t.takeWhile (fun c => c != ']')
  match t.drop label.length with
  | ']' :: '(' :: r2 =>
    let inside := r2.takeWhile (fun c => c != ')')
    match r2.drop inside.length with
    | ')' :: _ =>
      if (listPref ("https://").data inside && inside.length ≥ 9) ||
         (listPref ("http://").data inside && inside.length ≥ 8) then
        some (inside, label.length + inside.length + 4)
      else none
    | _ => none
  | _ => none

/-- All URL groups of markdown-link matches, in order
(`re.finditer(r"\[([^\]]*)\]\((https?://[^)]+)\)", markdown)`). -/
def mdLinkFindGo : List Char → Nat → List String
  | [], _ => []
  | _ :: t, Nat.succ k => mdLinkFindGo t k
  | c :: t, 0 =>
    if c == '[' then
      match mdLinkUrlAt t with
      | some p => (⟨p.1⟩ : String) :: mdLinkFindGo t (p.2 - 1)
      | none => mdLinkFindGo t 0
    else mdLinkFindGo t 0

/-- URL groups of all markdown links in `markdown`. -/
def mdLinkUrls (markdown : String) : List String := mdLinkFindGo markdown.data 0

/-- All bare `_POEM_URL_RE` matches, in order (`finditer`). -/
def poemUrlFindGo : List Char → Nat → List String
  | [], _ => []
  | _ :: t, Nat.succ k => poemUrlFindGo t k
  | c :: t, 0 =>
    match matchPoemUrlLen (c :: t) with
    | some len => (⟨(c :: t).take len⟩ : String) :: poemUrlFindGo t (len - 1)
    | none => poemUrlFindGo t 0

/-- Bare poem-URL matches in `markdown`. -/
def poemUrlMatches (markdown : String) : List String :=
  poemUrlFindGo markdown.data 0

/-- The shared loop body: first cleaned candidate passing
`_is_individual_poem`. -/
def firstIndiv (urls : List String) : Option String :=
  urls.findSome? (fun u =>
    let link := _clean_url u
    if _is_individual_poem link then some link else none)

/-- Python `extract_poem_url(markdown)` — markdown-embedded links first
(whatever their label), then bare URLs. -/
def extract_poem_url (markdown : String) : Option String :=
  match firstIndiv (mdLinkUrls markdown) with
  | some link => some link
  | none => firstIndiv (poemUrlMatches markdown)

/-- Whatever `firstIndiv` returns passed the individual-poem test. -/
theorem firstIndiv_some (urls : List String) (link : String)
    (h : firstIndiv urls = some link) : _is_individual_poem link = true := by
  induction urls with
  | nil => simp [firstIndiv] at h
  | cons u rest ih =>
    rw [firstIndiv, List.findSome?_cons] at h
    by_cases hc : _is_individual_poem (_clean_url u) = true
    · simp [hc] at h
      rw [← h]
      exact hc
    · simp [hc] at h
      exact ih (by rw [firstIndiv]; exact h)

/-- The search `firstIndiv` fails exactly when no candidate passes. -/
theorem firstIndiv_none_iff (urls : List String) :
    firstIndiv urls = none ↔
      ∀ u ∈ urls, _is_individual_poem (_clean_url u) = false := by
  induction urls with
  | nil => simp [firstIndiv]
  | cons u rest ih =>
    rw [firstIndiv, List.findSome?_cons]
    by_cases hc : _is_individual_poem (_clean_url u) = true
    · simp [hc]
    · simp only [hc, Bool.false_eq_true, if_false]
      rw [show (rest.findSome? fun u => let link := _clean_url u;
            if _is_individual_poem link = true then some link else none) =
          firstIndiv rest from rfl]
      constructor
      · intro hn v hv
        rcases List.mem_cons.mp hv with rfl | hv'
        · exact Bool.eq_false_iff.mpr hc
        · exact (ih.mp hn) v hv'
      · intro hall
        exact ih.mpr (fun v hv => hall v (List.mem_cons_of_mem u hv))

/-- C9 (amended): every URL the Locator returns matches the
individual-poem pattern and never references the landing page, and the
Locator returns not-found exactly when no candidate (markdown-embedded
first, then bare) passes; the anchor text of a link is never consulted —
see the counterexample. -/
theorem extract_poem_url_contract (markdown : String) :
    (∀ u, extract_poem_url markdown = some u → _is_individual_poem u = true)
    ∧ (extract_poem_url markdown = none ↔
        (∀ u ∈ mdLinkUrls markdown,
            _is_individual_poem (_clean_url u) = false)
        ∧ ∀ u ∈ poemUrlMatches markdown,
            _is_individual_poem (_clean_url u) = false) := by
  constructor
  · intro u hu
    unfold extract_poem_url at hu
    cases hmd : firstIndiv (mdLinkUrls markdown) with
    | some link =>
      rw [hmd] at hu
      simp only [Option.some.injEq] at hu
      exact hu ▸ firstIndiv_some _ _ hmd
    | none =>
      rw [hmd] at hu
      exact firstIndiv_some _ _ hu
  · unfold extract_poem_url
    cases hmd : firstIndiv (mdLinkUrls markdown) with
    | some link =>
      simp only [reduceCtorEq, false_iff, not_and]
      intro hall _
      exact Option.noConfusion
        (hmd.symm.trans ((firstIndiv_none_iff _).mpr hall))
    | none =>
      rw [firstIndiv_none_iff]
      have hA := (firstIndiv_none_iff (mdLinkUrls markdown)).mp hmd
      exact ⟨fun hb => ⟨hA, hb⟩, fun hab => hab.2⟩

/-- The landing-page content for the C9 counterexample: a poem link with
a non-canonical label appears before the `Read More`-labelled one. -/
def c9Landing : String :=
  "[Other](https://www.poetryfoundation.org/poems/222-y) and [Read More](https://www.poetryfoundation.org/poems/111-x)"

/-- C9 counterexample: the Locator returns the *first* markdown-embedded
poem URL even though the claim's preference order demands the
`Read More`-labelled link — anchor text is ignored. -/
theorem extract_poem_url_counterexample :
    extract_poem_url c9Landing
      = some "https://www.poetryfoundation.org/poems/222-y"
    ∧ ("https://www.poetryfoundation.org/poems/222-y" : String)
        ≠ "https://www.poetryfoundation.org/poems/111-x" := by
  constructor
  · decide
  · decide

/-- Witness for C9's amended theorem at the concrete landing content. -/
theorem extract_poem_url_contract_witness :
    _is_individual_poem "https://www.poetryfoundation.org/poems/222-y" = true :=
  (extract_poem_url_contract c9Landing).1
    "https://www.poetryfoundation.org/poems/222-y" (by decide)

-- ---------------------------------------------------------------------------
-- NUXT data extraction (`extract_poem_from_nuxt`, lines 309-413).
-- The function is modelled from the point where the `__NUXT_DATA__` JSON
-- array has been located and parsed: its input is the list of string
-- entries of that array, in order (non-string entries are skipped by the
-- `isinstance` check in the source and carry no information).
-- ---------------------------------------------------------------------------

/-- Scanner for `re.sub(r"<[^>]+>", "", item)`: the buffer holds the
characters since an unmatched `'<'` (reversed); on a `'>'` a buffer of
two or more characters is a match and is dropped. -/
def stripTagsGo : List Char → List Char → List Char
  | [], buf => buf.reverse
  | c :: t, buf =>
    if buf.isEmpty then
      if c == '<' then stripTagsGo t [c] else c :: stripTagsGo t buf
    else
      if c == '>' then
        if buf.length ≥ 2 then stripTagsGo t []
        else buf.reverse ++ '>' :: stripTagsGo t []
      else stripTagsGo t (c :: buf)

/-- Scanner for `re.sub(r"&\w+;", " ", text)`: `some buf` is the pending
word-character run after a `'&'` (reversed). -/
def collapseEntGo : List Char → Option (List Char) → List Char
  | [], none => []
  | [], some buf => '&' :: buf.reverse
  | c :: t, none =>
    if c == '&' then collapseEntGo t (some []) else c :: collapseEntGo t none
  | c :: t, some buf =>
    if isWordChar c then collapseEntGo t (some (c :: buf))
    else if c == ';' && !buf.isEmpty then ' ' :: collapseEntGo t none
    else if c == '&' then ('&' :: buf.reverse) ++ collapseEntGo t (some [])
    else ('&' :: buf.reverse) ++ c :: collapseEntGo t none

/-- Python `text_len` — length of the tag-stripped, entity-collapsed,
whitespace-trimmed text of an entry. -/
def plainTextLen (item : String) : Nat :=
  (pyStrip ⟨collapseEntGo (stripTagsGo item.data []) none⟩).length

/-- Does `display:` followed by optional whitespace and `none` occur
(case-insensitively) anywhere in this tag chunk? -/
def displayNoneIn : List Char → Bool
  | [] => false
  | c :: t =>
    (listPrefCI ("display:").data (c :: t) &&
      listPrefCI ("none").data (((c :: t).drop 8).dropWhile pyIsSpace)) ||
    displayNoneIn t

/-- Length of the match of
`<span[^>]*display:\s*none[^>]*>.*?</span>` (DOTALL, case-insensitive) at
the head of `l`, or `none`.  Backtracking analysis: the tag part is
confined to the run before the first `'>'` after `<span`, and the lazy
`.*?` stops at the first `</span>`. -/
def hiddenMatchLenAt (l : List Char) : Option Nat :=
  if listPrefCI ("<span").data l then
    let r := l.drop 5
    match idxOfGt r with
    | none => none
    | some z =>
      if displayNoneIn (r.take z) then
        match findCISubIdx ("</span>").data (r.drop (z + 1)) with
        | some q => some (5 + z + 1 + q + 7)
        | none => none
      else none
  else none

/-- Scanner for the `re.sub` that removes hidden spans before the
visible-link test. -/
def stripHiddenGo : List Char → Nat → List Char
  | [], _ => []
  | _ :: t, Nat.succ k => stripHiddenGo t k
  | c :: t, 0 =>
    if c == '<' then
      match hiddenMatchLenAt (c :: t) with
      | some len => stripHiddenGo t (len - 1)
      | none => c :: stripHiddenGo t 0
    else c :: stripHiddenGo t 0

/-- Remove every hidden-display span (with its contents) from an entry. -/
def stripHiddenSpans (item : String) : String := ⟨stripHiddenGo item.data 0⟩

/-- Python `has_visible_links` — a link marker surviving hidden-span
removal. -/
def has_visible_links (item : String) : Bool :=
  pyContains (stripHiddenSpans item) "<a "

/-- Python `br_count = item.count("<br")`. -/
def brCount (item : String) : Nat := countSub item "<br"

/-- Python `br_ratio = br_count / max(1, text_len)` — the exact value of
the float ratio, used in the specification-level statements. -/
def brRatioQ (item : String) : ℚ :=
  (brCount item : ℚ) / ((max 1 (plainTextLen item) : ℕ) : ℚ)

/-- Python `score = text_len * (1 + br_ratio * 100)` — the exact value
of the float score, used in the specification-level statements. -/
def scoreQ (item : String) : ℚ :=
  (plainTextLen item : ℚ) * (1 + brRatioQ item * 100)

/-- Numerator of the score written over a common denominator:
`score = text_len * (max 1 text_len + 100 * br_count) / max 1 text_len`. -/
def scoreNum (item : String) : ℕ :=
  plainTextLen item * (max 1 (plainTextLen item) + 100 * brCount item)

/-- Denominator of the score. -/
def scoreDen (item : String) : ℕ := max 1 (plainTextLen item)

/-- All the `continue` guards of the selection loop: paragraph-like start,
at least 3 `<br`, at least 50 plain characters, not (visible link with
ratio below 0.01), ratio at least 0.003.  The two ratio thresholds are
the exact cross-multiplied forms of `br_ratio < 0.01` and
`br_ratio < 0.003` (the denominator is positive). -/
def candOk (item : String) : Bool :=
  pyStartsWith (pyLstrip item) "<p" &&
  decide (3 ≤ brCount item) &&
  decide (50 ≤ plainTextLen item) &&
  !(has_visible_links item &&
      decide (brCount item * 100 < max 1 (plainTextLen item))) &&
  !(decide (brCount item * 1000 < 3 * max 1 (plainTextLen item)))

/-- One iteration of the best-candidate loop.  The running best score is
kept as an exact fraction (numerator, positive denominator), starting
from `-1`; `score > best_score` is the cross-multiplied comparison. -/
def selStep (best : String × Int × ℕ) (item : String) : String × Int × ℕ :=
  if candOk item = true ∧
      best.2.1 * (scoreDen item : Int) < (scoreNum item : Int) * (best.2.2 : Int) then
    (item, (scoreNum item : Int), scoreDen item)
  else best

/-- The full loop, started from `best_html = ""`, `best_score = -1`. -/
def bodyBest (data : List String) : String × Int × ℕ :=
  data.foldl selStep ("", -1, 1)

/-- The selected entry (`None` when `best_html` stayed empty). -/
def selectedEntry (data : List String) : Option String :=
  if (bodyBest data).1 = "" then none else some (bodyBest data).1

/-- Does `font-style:` then optional whitespace then `italic` occur
(case-insensitively) in this tag chunk? -/
def fontItalicIn : List Char → Bool
  | [] => false
  | c :: t =>
    (listPrefCI ("font-style:").data (c :: t) &&
      listPrefCI ("italic").data (((c :: t).drop 11).dropWhile pyIsSpace)) ||
    fontItalicIn t

/-- Python `re.match(r'<div\s[^>]*font-style:\s*italic[^>]*>', item, re.I)`
as a Boolean. -/
def divItalicMatch (item : String) : Bool :=
  listPrefCI ("<div").data item.data &&
  (match item.data.drop 4 with
   | c :: t =>
     pyIsSpace c &&
     (match idxOfGt t with
      | some z => fontItalicIn (t.take z)
      | none => false)
   | [] => false)

/-- The epigraph loop: the *last* italic-div entry whose converted text is
non-empty and under 300 characters (`""` when there is none). -/
def epigraphScan (data : List String) : String :=
  data.foldl (fun acc item =>
    if divItalicMatch item then
      let text := html_to_markdown item
      if text ≠ "" ∧ text.length < 300 then text else acc
    else acc) ""

/-- The result dictionary of `extract_poem_from_nuxt`. -/
structure NuxtResult where
  body : String
  epigraph : Option String
deriving DecidableEq

/-- Python `s.replace("_", "").replace("*", "")`. -/
def delEmph (s : String) : String := pyReplace (pyReplace s "_" "") "*" ""

/-- Python `plain_epi` — emphasis-stripped, trimmed epigraph text. -/
def plainEpi (e : String) : String := pyStrip (delEmph e)

/-- Python `epi_clean` — strip one outer pair of `_` markers. -/
def cleanEpi (e : String) : String :=
  let c := pyStrip e
  if pyStartsWith c "_" && pyEndsWith c "_" then
    pyStrip ⟨(c.data.drop 1).dropLast⟩
  else c

/-- Python `extract_poem_from_nuxt`, from the parsed `__NUXT_DATA__`
string entries onward. -/
def extract_poem_from_nuxt (data : List String) : Option NuxtResult :=
  match selectedEntry data with
  | none => none
  | some best =>
    if html_to_markdown best = "" then none
    else
      some { body := html_to_markdown best,
             epigraph :=
               if epigraphScan data ≠ "" ∧
                   ¬(pyContains (delEmph (html_to_markdown best))
                       (plainEpi (epigraphScan data)) = true) then
                 some (cleanEpi (epigraphScan data))
               else none }

-- ---------------------------------------------------------------------------
-- C1: candidate classification of the Embedded-Data Extractor
-- ---------------------------------------------------------------------------

/-- The score denominator is positive. -/
theorem scoreDen_pos (item : String) : 0 < scoreDen item := by
  unfold scoreDen
  omega

/-- The ℚ value of a running-best fraction. -/
def fracQ (p : Int × ℕ) : ℚ := (p.1 : ℚ) / (p.2 : ℚ)

/-- The score as a single fraction. -/
theorem scoreQ_eq_frac (item : String) :
    scoreQ item = (scoreNum item : ℚ) / (scoreDen item : ℚ) := by
  unfold scoreQ brRatioQ scoreNum scoreDen
  have hd : ((max 1 (plainTextLen item) : ℕ) : ℚ) ≠ 0 :=
    Nat.cast_ne_zero.mpr (by omega)
  rw [eq_div_iff hd]
  push_cast [-Nat.cast_max]
  calc (plainTextLen item : ℚ) *
        (1 + (brCount item : ℚ) / ((max 1 (plainTextLen item) : ℕ) : ℚ) * 100) *
        ((max 1 (plainTextLen item) : ℕ) : ℚ)
      = (plainTextLen item : ℚ) *
          (((max 1 (plainTextLen item) : ℕ) : ℚ) +
            (brCount item : ℚ) / ((max 1 (plainTextLen item) : ℕ) : ℚ) *
              ((max 1 (plainTextLen item) : ℕ) : ℚ) * 100) := by ring
    _ = (plainTextLen item : ℚ) *
          (((max 1 (plainTextLen item) : ℕ) : ℚ) + (brCount item : ℚ) * 100) := by
        rw [div_mul_cancel₀ _ hd]
    _ = (plainTextLen item : ℚ) *
          (((max 1 (plainTextLen item) : ℕ) : ℚ) + 100 * (brCount item : ℚ)) := by
        ring

/-- The cross-multiplied form of `br_ratio < 0.01`. -/
theorem ratio_lt_hundredth_iff (item : String) :
    brCount item * 100 < max 1 (plainTextLen item) ↔ brRatioQ item < 1 / 100 := by
  unfold brRatioQ
  have hd : (0:ℚ) < ((max 1 (plainTextLen item) : ℕ) : ℚ) := by
    exact_mod_cast (show 0 < max 1 (plainTextLen item) by omega)
  rw [div_lt_div_iff₀ hd (by norm_num : (0:ℚ) < 100), one_mul]
  exact_mod_cast Iff.rfl

/-- The cross-multiplied form of `br_ratio < 0.003`. -/
theorem ratio_lt_three_thousandths_iff (item : String) :
    brCount item * 1000 < 3 * max 1 (plainTextLen item) ↔
      brRatioQ item < 3 / 1000 := by
  unfold brRatioQ
  have hd : (0:ℚ) < ((max 1 (plainTextLen item) : ℕ) : ℚ) := by
    exact_mod_cast (show 0 < max 1 (plainTextLen item) by omega)
  rw [div_lt_div_iff₀ hd (by norm_num : (0:ℚ) < 1000)]
  exact_mod_cast Iff.rfl

/-- The loop's cross-multiplied comparison is `best score < score`. -/
theorem frac_lt_score_iff (p : Int × ℕ) (hp : 0 < p.2) (item : String) :
    (p.1 * (scoreDen item : Int) < (scoreNum item : Int) * (p.2 : Int)) ↔
      fracQ p < scoreQ item := by
  rw [scoreQ_eq_frac]
  unfold fracQ
  have h1 : (0:ℚ) < (p.2 : ℚ) := by exact_mod_cast hp
  have h2 : (0:ℚ) < ((scoreDen item : ℕ) : ℚ) := by
    exact_mod_cast scoreDen_pos item
  rw [div_lt_div_iff₀ h1 h2]
  exact_mod_cast Iff.rfl

/-- Denominator positivity is preserved by the loop. -/
theorem foldl_selStep_den_pos (l : List String) (b : String × Int × ℕ)
    (hb : 0 < b.2.2) : 0 < (l.foldl selStep b).2.2 := by
  induction l generalizing b with
  | nil => exact hb
  | cons x xs ih =>
    rw [List.foldl_cons]
    refine ih (selStep b x) ?_
    unfold selStep
    split
    · exact scoreDen_pos x
    · exact hb

/-- The ℚ value of an entry's stored score fraction is its score. -/
theorem fracQ_score (item : String) :
    fracQ ((scoreNum item : Int), scoreDen item) = scoreQ item := by
  rw [scoreQ_eq_frac]
  unfold fracQ
  push_cast
  rfl

/-- One loop step never decreases the best score, and keeps the
denominator positive. -/
theorem selStep_le (b : String × Int × ℕ) (x : String) (hb : 0 < b.2.2) :
    fracQ b.2 ≤ fracQ (selStep b x).2 ∧ 0 < (selStep b x).2.2 := by
  unfold selStep
  split
  · rename_i h
    constructor
    · show fracQ b.2 ≤ fracQ ((scoreNum x : Int), scoreDen x)
      rw [fracQ_score]
      exact le_of_lt ((frac_lt_score_iff b.2 hb x).mp h.2)
    · exact scoreDen_pos x
  · exact ⟨le_refl _, hb⟩

/-- The running best score never decreases along the loop. -/
theorem foldl_selStep_mono (l : List String) (b : String × Int × ℕ)
    (hb : 0 < b.2.2) : fracQ b.2 ≤ fracQ (l.foldl selStep b).2 := by
  induction l generalizing b with
  | nil => exact le_refl _
  | cons x xs ih =>
    rw [List.foldl_cons]
    exact le_trans (selStep_le b x hb).1 (ih (selStep b x) (selStep_le b x hb).2)

/-- Every surviving entry's score is dominated by the final best score. -/
theorem foldl_selStep_ge (e : String) (hc : candOk e = true) :
    ∀ (l : List String) (b : String × Int × ℕ), 0 < b.2.2 → e ∈ l →
      scoreQ e ≤ fracQ (l.foldl selStep b).2 := by
  intro l
  induction l with
  | nil => intro b _ he; cases he
  | cons x xs ih =>
    intro b hb he
    rw [List.foldl_cons]
    rcases List.mem_cons.mp he with rfl | he'
    · refine le_trans ?_ (foldl_selStep_mono xs (selStep b e) (selStep_le b e hb).2)
      unfold selStep
      split
      · show scoreQ e ≤ fracQ ((scoreNum e : Int), scoreDen e)
        rw [fracQ_score]
      · rename_i h
        have hnl : ¬(b.2.1 * (scoreDen e : Int) < (scoreNum e : Int) * (b.2.2 : Int)) :=
          fun hlt => h ⟨hc, hlt⟩
        have := not_lt.mp (fun hq => hnl ((frac_lt_score_iff b.2 hb e).mpr hq))
        exact this
    · exact ih (selStep b x) (selStep_le b x hb).2 he'

/-- The loop result is either the initial triple or a surviving member of
the list paired with its own score fraction. -/
theorem foldl_selStep_invariant (l : List String) (b : String × Int × ℕ) :
    l.foldl selStep b = b ∨
      ((l.foldl selStep b).1 ∈ l ∧ candOk (l.foldl selStep b).1 = true ∧
        (l.foldl selStep b).2 =
          ((scoreNum (l.foldl selStep b).1 : Int),
            scoreDen (l.foldl selStep b).1)) := by
  induction l generalizing b with
  | nil => left; rfl
  | cons x xs ih =>
    rw [List.foldl_cons]
    rcases ih (selStep b x) with h | h
    · rw [h]
      unfold selStep
      split
      · rename_i hcond
        right
        exact ⟨List.mem_cons_self _ _, hcond.1, rfl⟩
      · left; rfl
    · right
      exact ⟨List.mem_cons_of_mem x h.1, h.2.1, h.2.2⟩

/-- The break ratio is a quotient of non-negatives. -/
theorem brRatioQ_nonneg (item : String) : 0 ≤ brRatioQ item :=
  div_nonneg (Nat.cast_nonneg _) (Nat.cast_nonneg _)

/-- Scores are non-negative. -/
theorem scoreQ_nonneg (item : String) : 0 ≤ scoreQ item := by
  unfold scoreQ
  apply mul_nonneg (Nat.cast_nonneg _)
  have h := mul_nonneg (brRatioQ_nonneg item) (by norm_num : (0:ℚ) ≤ 100)
  linarith

/-- A selected entry is a surviving member carrying its own score. -/
theorem selected_candOk (data : List String) (x : String)
    (h : selectedEntry data = some x) :
    x ∈ data ∧ candOk x = true ∧
      (bodyBest data).2 = ((scoreNum x : Int), scoreDen x) := by
  unfold selectedEntry at h
  split at h
  · exact absurd h (by simp)
  · rename_i hne
    simp only [Option.some.injEq] at h
    rcases foldl_selStep_invariant data ("", -1, 1) with hinv | hinv
    · exact absurd (congrArg Prod.fst hinv) (h ▸ hne)
    · rw [← h]
      exact hinv

/-- C1: the Embedded-Data Extractor's classification rule — an entry with
a visible link (after hidden-span removal) and break ratio below 0.01 is
never selected; an entry with break ratio below 0.003 is never selected;
and among surviving entries (paragraph-like start, at least 3 break
markers, at least 50 plain characters, and neither discard rule firing)
the selected entry exists and maximises
`score = plainTextLength * (1 + lineBreakRatio * 100)`. -/
theorem nuxt_candidate_classification (data : List String) :
    (∀ e ∈ data, has_visible_links e = true → brRatioQ e < 1 / 100 →
        selectedEntry data ≠ some e)
    ∧ (∀ e ∈ data, brRatioQ e < 3 / 1000 → selectedEntry data ≠ some e)
    ∧ (∀ e ∈ data, candOk e = true →
        ∃ b, selectedEntry data = some b ∧ candOk b = true ∧
          scoreQ e ≤ scoreQ b) := by
  refine ⟨?_, ?_, ?_⟩
  · intro e _ hvl hr hsel
    obtain ⟨_, hc, _⟩ := selected_candOk data e hsel
    simp only [candOk, Bool.and_eq_true, Bool.not_eq_true'] at hc
    obtain ⟨⟨_, h4⟩, _⟩ := hc
    rw [hvl, Bool.true_and] at h4
    exact of_decide_eq_false h4 ((ratio_lt_hundredth_iff e).mpr hr)
  · intro e _ hr hsel
    obtain ⟨_, hc, _⟩ := selected_candOk data e hsel
    simp only [candOk, Bool.and_eq_true, Bool.not_eq_true'] at hc
    obtain ⟨_, h5⟩ := hc
    exact of_decide_eq_false h5 ((ratio_lt_three_thousandths_iff e).mpr hr)
  · intro e he hc
    have hge : scoreQ e ≤ fracQ (bodyBest data).2 :=
      foldl_selStep_ge e hc data ("", -1, 1) (by norm_num) he
    rcases foldl_selStep_invariant data ("", -1, 1) with hinv | hinv
    · exfalso
      have h2 : (bodyBest data).2 = (-1, 1) := congrArg Prod.snd hinv
      rw [h2] at hge
      have h3 : fracQ ((-1 : Int), (1 : ℕ)) = -1 := by
        unfold fracQ
        norm_num
      rw [h3] at hge
      have := scoreQ_nonneg e
      linarith
    · have hne : (bodyBest data).1 ≠ "" := by
        intro h0
        have hok : candOk (bodyBest data).1 = true := hinv.2.1
        rw [h0] at hok
        exact absurd hok (by decide)
      refine ⟨(bodyBest data).1, ?_, hinv.2.1, ?_⟩
      · unfold selectedEntry
        rw [if_neg hne]
      · rw [show (bodyBest data).2 =
            ((scoreNum (bodyBest data).1 : Int), scoreDen (bodyBest data).1)
            from hinv.2.2, fracQ_score] at hge
        exact hge

/-- A prose entry for the witnesses: a visible link and no break tags. -/
def proseEntry : String := "<p><a href=\"x\">link</a> and prose</p>"

/-- A verse entry for the witnesses: 50 plain characters, 3 break tags. -/
def verseEntry : String :=
  "<p>aaaaaaaaaaaaaaaaaaaaaaaaaaaaaaaaaaaaaaaaaaaaaaaaaa<br><br><br></p>"

/-- Witness data list for C1. -/
def nuxtDemo : List String := [proseEntry, verseEntry]

/-- Witness for C1: the linked prose entry is never the selection. -/
theorem nuxt_candidate_classification_witness :
    selectedEntry nuxtDemo ≠ some proseEntry :=
  (nuxt_candidate_classification nuxtDemo).1 proseEntry (by decide)
    (by decide) ((ratio_lt_hundredth_iff proseEntry).mp (by decide))

-- ---------------------------------------------------------------------------
-- C7: epigraph deduplication
-- ---------------------------------------------------------------------------

/-- C7: when the extractor returns a record and an epigraph candidate was
found, the record omits the epigraph exactly when its emphasis-stripped
text occurs in the emphasis-stripped body, and otherwise carries the
epigraph with its outer emphasis markers stripped. -/
theorem nuxt_epigraph_dedup (data : List String) (r : NuxtResult)
    (hr : extract_poem_from_nuxt data = some r)
    (he : epigraphScan data ≠ "") :
    (pyContains (delEmph r.body) (plainEpi (epigraphScan data)) = true →
        r.epigraph = none)
    ∧ (pyContains (delEmph r.body) (plainEpi (epigraphScan data)) = false →
        r.epigraph = some (cleanEpi (epigraphScan data))) := by
  cases hsel : selectedEntry data with
  | none =>
    rw [show extract_poem_from_nuxt data = none by
      unfold extract_poem_from_nuxt; rw [hsel]] at hr
    exact absurd hr (by simp)
  | some best =>
    have hext : extract_poem_from_nuxt data =
        (if html_to_markdown best = "" then none
         else
           some { body := html_to_markdown best,
                  epigraph :=
                    if epigraphScan data ≠ "" ∧
                        ¬(pyContains (delEmph (html_to_markdown best))
                            (plainEpi (epigraphScan data)) = true) then
                      some (cleanEpi (epigraphScan data))
                    else none }) := by
      unfold extract_poem_from_nuxt
      rw [hsel]
    rw [hext] at hr
    by_cases hb : html_to_markdown best = ""
    · rw [if_pos hb] at hr
      exact absurd hr (by simp)
    · rw [if_neg hb] at hr
      simp only [Option.some.injEq] at hr
      subst hr
      constructor
      · intro hcont
        show (if epigraphScan data ≠ "" ∧
              ¬(pyContains (delEmph (html_to_markdown best))
                  (plainEpi (epigraphScan data)) = true) then
            some (cleanEpi (epigraphScan data)) else none) = none
        exact if_neg (fun hand => hand.2 hcont)
      · intro hfalse
        show (if epigraphScan data ≠ "" ∧
              ¬(pyContains (delEmph (html_to_markdown best))
                  (plainEpi (epigraphScan data)) = true) then
            some (cleanEpi (epigraphScan data)) else none)
          = some (cleanEpi (epigraphScan data))
        exact if_pos ⟨he, fun htrue => by rw [hfalse] at htrue; cases htrue⟩

/-- Italic-div epigraph entry for the C7 witness. -/
def epigraphEntry : String :=
  "<div style=\"font-style:italic\">for Harlem Magic</div>"

/-- Witness data list for C7. -/
def epigraphDemo : List String := [proseEntry, epigraphEntry, verseEntry]

/-- The record the extractor produces on `epigraphDemo`. -/
def epigraphDemoResult : NuxtResult :=
  ⟨⟨List.replicate 50 'a'⟩, some "for Harlem Magic"⟩

/-- Witness for C7: the epigraph is returned, outer emphasis stripped,
because its text does not occur in the body. -/
theorem nuxt_epigraph_dedup_witness :
    epigraphDemoResult.epigraph = some (cleanEpi (epigraphScan epigraphDemo)) :=
  (nuxt_epigraph_dedup epigraphDemo epigraphDemoResult (by decide)
    (by decide)).2 (by decide)

end FetchPoem
